import Mathlib

/-!
Verification development for the TENET tarot reading HTTP service
(`app.py`).  The Python source is shallowly embedded over `Str := List
Char`: Python string operations (`str.strip`, `str.lower`, substring
containment, the regular expressions used by the code) are modelled as
executable Lean functions, request handling is modelled as a pure
function of the server state (card pool and key allow-list), the request
data, an injected randomness stream for `random.sample`, and the outcome
of the external completion call.
-/

set_option maxRecDepth 4000

abbrev Str := List Char

/-! ## Python string primitives -/

/-- Python `\s` / `str.strip` whitespace on the ASCII range
(space, tab, newline, carriage return, vertical tab, form feed). -/
def pyWs (c : Char) : Bool :=
  c.toNat = 32 || c.toNat = 9 || c.toNat = 10 || c.toNat = 13 ||
  c.toNat = 11 || c.toNat = 12

/-- Models `str.lstrip()` : drop leading whitespace. -/
def lstripWs (s : Str) : Str := s.dropWhile pyWs

/-- Models `str.rstrip()` : drop trailing whitespace. -/
def rstripWs (s : Str) : Str := (s.reverse.dropWhile pyWs).reverse

/-- Python `str.strip()`. -/
def pyStrip (s : Str) : Str := rstripWs (lstripWs s)

/-- Models `str.strip(chars)` for an explicit character set. -/
def pyStripSet (p : Char → Bool) (s : Str) : Str :=
  ((s.dropWhile p).reverse.dropWhile p).reverse

/-- The character set of `strip(" :\n\t-")` used on the synthesis text. -/
def synStripChar (c : Char) : Bool :=
  c.toNat = 32 || c.toNat = 58 || c.toNat = 10 || c.toNat = 9 || c.toNat = 45

/-- Python `str.lower()`, modelled on the ASCII range (`Char.toLower`). -/
def pyLower (s : Str) : Str := s.map Char.toLower

/-- Python `needle in haystack` substring containment (second argument is
the haystack). -/
def hasSub (p : Str) : Str → Bool
  | [] => p.isPrefixOf []
  | c :: t => p.isPrefixOf (c :: t) || hasSub p t

/-- Python truthiness-based `or` for optional strings:
`(d.get(k) or fallback)` — `None` and `""` both fall through. -/
def pyOrD (o : Option Str) (d : Str) : Str :=
  match o with
  | some s => if s.isEmpty then d else s
  | none => d

/-- Models `text.split(marker, 1)` when the marker occurs: returns the part
before the first occurrence and the part after it, `none` when the
marker does not occur (this also decides Python's `marker in text`). -/
def splitOnce (p : Str) : Str → Option (Str × Str)
  | [] => if p.isPrefixOf [] then some ([], []) else none
  | c :: t =>
    if p.isPrefixOf (c :: t) then some ([], (c :: t).drop p.length)
    else (splitOnce p t).map (fun pr => (c :: pr.1, pr.2))

/-- Models `re.sub(r"\s+", " ", s)`: each maximal whitespace run becomes one
space.  The Boolean flag records whether we are inside a run. -/
def collapseWsAux : Bool → Str → Str
  | _, [] => []
  | inRun, c :: t =>
    if pyWs c then
      if inRun then collapseWsAux true t else ' ' :: collapseWsAux true t
    else c :: collapseWsAux false t

def collapseWs (s : Str) : Str := collapseWsAux false s

/-! ## Context classification (`detect_context`, app.py lines 37-73) -/

def relazioniK : Str := "relazioni".data
def lavoroK : Str := "lavoro".data
def crescitaK : Str := "crescita".data
def sceltaK : Str := "scelta".data
def neutroK : Str := "neutro".data

/-- Models `CONTEXTS` (app.py line 37), in definition order. -/
def CONTEXTS : List Str := [relazioniK, lavoroK, crescitaK, sceltaK, neutroK]

/-- Models `CONTEXT_KEYWORDS` (app.py lines 39-57): insertion-ordered
association list; `"neutro"` has no keyword entry. -/
def CONTEXT_KEYWORDS : List (Str × List Str) :=
  [ (relazioniK,
      (["amore", "relazione", "coppia", "partner",
        "fidanz", "marito", "moglie",
        "gelosia", "tradimento", "ex", "sentimenti"]).map String.data),
    (lavoroK,
      (["lavoro", "carriera", "colloquio", "azienda", "capo", "progetto",
        "business",
        "clienti", "soldi", "denaro", "stipendio", "fatturato", "contratto",
        "studio"]).map String.data),
    (crescitaK,
      (["ansia", "paura", "blocco", "crescita", "consapevolezza",
        "autostima",
        "energia", "chakra", "percorso", "guarigione", "stress",
        "equilibrio"]).map String.data),
    (sceltaK,
      (["scegliere", "scelta", "bivio", "decisione", "decidere", "lasciare",
        "cambiare",
        "trasferir", "rinuncia", "opzione", "strada", "direzione"]).map
        String.data) ]

/-- Keyword list of a context (empty for `"neutro"` and unknown keys). -/
def kwOf (c : Str) : List Str :=
  match CONTEXT_KEYWORDS.find? (fun p => p.1 == c) with
  | some p => p.2
  | none => []

/-- Models `scores[ctx]` after the counting loop: number of keywords of `ctx`
contained in the (lower-cased, stripped) question. -/
def ctxScore (c : Str) (q : Str) : Nat :=
  (kwOf c).countP (fun kw => hasSub kw q)

/-- The `scores` dict, in `CONTEXTS` insertion order. -/
def scoresOf (q : Str) : List (Str × Nat) :=
  CONTEXTS.map (fun c => (c, ctxScore c q))

/-- Python `max(scores, key=lambda k: scores[k])`: first maximal entry in
iteration order (a later entry replaces the current best only when
strictly greater). -/
def pickBest : List (Str × Nat) → Str × Nat
  | [] => (neutroK, 0)
  | x :: xs => xs.foldl (fun b p => if b.2 < p.2 then p else b) x

/-- Models `q = (question or "").lower().strip()` (app.py line 60). -/
def normQ (question : Str) : Str := pyStrip (pyLower question)

/-- Models `detect_context` (app.py lines 59-73). -/
def detect_context (question : Str) : Str :=
  if (normQ question).isEmpty then neutroK
  else
    let best := pickBest (scoresOf (normQ question))
    if best.2 = 0 then neutroK else best.1

/-! ## Response parsing (`generate_reading`, app.py lines 274-318)

The generated text is parsed with:
  * `text.split("Sintesi", 1)` for the synthesis,
  * `re.split(r"\n\s*\n|Stato\s*[–-]", main, maxsplit=1)` for the intro
    (only element 0 of the split is used: the text before the leftmost
    match),
  * `re.compile(r"(Stato|Dinamica|Direzione)\s*[–-]\s*([^\n]+)\n(.*?)`
    `(?=\n(Stato|Dinamica|Direzione)\s*[–-]|\Z)", re.S).finditer(main)`
    for the sections.
Each regex is modelled as an executable matcher with the backtracking
priorities of the Python engine (greedy `\s*`/`[^\n]+`, lazy `.*?`). -/

def statoW : Str := ['S', 't', 'a', 't', 'o']
def dinamicaW : Str := ['D', 'i', 'n', 'a', 'm', 'i', 'c', 'a']
def direzioneW : Str := ['D', 'i', 'r', 'e', 'z', 'i', 'o', 'n', 'e']
def sinMark : Str := ['S', 'i', 'n', 't', 'e', 's', 'i']
def letturaW : Str := "Lettura".data

/-- The literal `" – "` (space, en dash, space) used in section
titles. -/
def dashSep : Str := [' ', '–', ' ']

/-- Models `[–-]`: en dash (U+2013) or hyphen-minus. -/
def dashChar (c : Char) : Bool := c.toNat = 8211 || c.toNat = 45

/-- The alternation `(Stato|Dinamica|Direzione)` at the current position:
the three words are mutually non-prefixing, so at most one matches. -/
def matchLabel (s : Str) : Option (Str × Str) :=
  if statoW.isPrefixOf s then some (statoW, s.drop 5)
  else if dinamicaW.isPrefixOf s then some (dinamicaW, s.drop 8)
  else if direzioneW.isPrefixOf s then some (direzioneW, s.drop 9)
  else none

/-- Models `\s*[–-]` at the current position.  The dash is not whitespace, so
greedy backtracking degenerates: skip the maximal whitespace run, then
require a dash. -/
def skipWsDash (s : Str) : Option Str :=
  let r := s.dropWhile pyWs
  if r.isEmpty then none
  else if dashChar (r.headD ' ') then some r.tail else none

/-- Models `([^\n]+)\n` anchored at the current position: the greedy group is
the maximal non-newline run, it must be non-empty and be followed by a
literal newline.  Returns (group, rest after the newline). -/
def nameAt (s : Str) : Option (Str × Str) :=
  let g := s.takeWhile (fun c => !(c == '\n'))
  let r := s.drop g.length
  if g.isEmpty then none
  else if r.headD ' ' == '\n' then some (g, r.tail) else none

/-- Models `\s*([^\n]+)\n` with the greedy-`\s*`-first backtracking order:
prefer consuming a whitespace character into `\s*`; on failure fall back
to starting `[^\n]+` here. -/
def nameLine : Str → Option (Str × Str)
  | [] => none
  | c :: r =>
    if pyWs c then
      match nameLine r with
      | some out => some out
      | none => nameAt (c :: r)
    else nameAt (c :: r)

/-- Models `(Stato|Dinamica|Direzione)\s*[–-]` (used inside the lookahead). -/
def labelDashB (r : Str) : Bool :=
  match matchLabel r with
  | some p => (skipWsDash p.2).isSome
  | none => false

/-- The lookahead `(?=\n(Stato|Dinamica|Direzione)\s*[–-]|\Z)`
(`\Z` is absolute end of input). -/
def lookaheadB (t : Str) : Bool :=
  match t with
  | [] => true
  | c :: r => c == '\n' && labelDashB r

/-- Models `(.*?)(?=...)` with `re.S`: the lazy group grows until the first
position where the lookahead holds (it always holds at end of input).
Returns (group, rest at the lookahead position). -/
def takeBody : Str → Str × Str
  | [] => ([], [])
  | c :: r =>
    if lookaheadB (c :: r) then ([], c :: r)
    else
      let p := takeBody r
      (c :: p.1, p.2)

/-- A parsed `{"title": ..., "body": ...}` section. -/
structure RSection where
  title : Str
  body : Str
deriving DecidableEq, Repr

/-- One attempted match of the section-block regex at the current
position; on success returns the section (title
`f"{label} – {card_name}"` with both parts stripped, body
whitespace-collapsed and stripped) and the rest of the input at the
match end (the lookahead is not consumed). -/
def tryBlockAt (s : Str) : Option (RSection × Str) :=
  match matchLabel s with
  | none => none
  | some (lab, r1) =>
    match skipWsDash r1 with
    | none => none
    | some r2 =>
      match nameLine r2 with
      | none => none
      | some (g2, r3) =>
        let p := takeBody r3
        some (⟨pyStrip lab ++ dashSep ++ pyStrip g2,
               pyStrip (collapseWs p.1)⟩, p.2)

/-- Models `finditer` of the section-block regex, fuel-indexed: at each
position try a match; on success emit the section and resume at the
match end, otherwise advance one character.  Every successful match
consumes at least one character, so fuel `s.length + 1` is exact
(`findBlocks` below); the fuel only makes the recursion structural. -/
def findBlocksF : Nat → Str → List RSection
  | 0, _ => []
  | fuel + 1, s =>
    match tryBlockAt s with
    | some (sec, rest) => sec :: findBlocksF fuel rest
    | none =>
      match s with
      | [] => []
      | _ :: t => findBlocksF fuel t

/-- All section-block matches of `main`, in order. -/
def findBlocks (s : Str) : List RSection := findBlocksF (s.length + 1) s

/-- Does the intro-splitting alternation `\n\s*\n|Stato\s*[–-]` match at
this position?  `\n\s*\n` matches iff a second newline occurs inside the
maximal whitespace run after the first; `Stato\s*[–-]` as in the block
regex. -/
def statoDashAt (s : Str) : Bool :=
  statoW.isPrefixOf s &&
    (match (s.drop 5).dropWhile pyWs with
     | c :: _ => dashChar c
     | [] => false)

def blankAt : Str → Bool
  | [] => false
  | c :: t => c == '\n' && (t.takeWhile pyWs).contains '\n'

def introMatchAt (s : Str) : Bool := blankAt s || statoDashAt s

/-- Element 0 of `re.split(r"\n\s*\n|Stato\s*[–-]", main, maxsplit=1)`:
the text before the leftmost match (the whole string when there is no
match). -/
def introCut : Str → Str
  | [] => []
  | c :: t => if introMatchAt (c :: t) then [] else c :: introCut t

/-! ### The parser pipeline (app.py lines 274-318) -/

/-- Models `text = (resp.output_text or "").strip()` (line 274). -/
def textOf (raw : Str) : Str := pyStrip raw

/-- Lines 283-288: `main`, `synthesis` from the `"Sintesi"` split. -/
def splitSin (text : Str) : Str × Str :=
  match splitOnce sinMark text with
  | some (before, after) => (pyStrip before, pyStripSet synStripChar after)
  | none => (text, [])

def mainOf (raw : Str) : Str := (splitSin (textOf raw)).1
def synthOf (raw : Str) : Str := (splitSin (textOf raw)).2

/-- Lines 291-293: `intro = m_intro[0].strip()`. -/
def introOf (raw : Str) : Str := pyStrip (introCut (mainOf raw))

/-- Lines 306-318: the section list, with the single-section `"Lettura"`
fallback wrapping the full stripped text when no block matched. -/
def sectionsOf (raw : Str) : List RSection :=
  let secs := findBlocks (mainOf raw)
  if secs.isEmpty then [⟨letturaW, textOf raw⟩] else secs

structure Parsed where
  intro : Str
  sections : List RSection
  synthesis : Str
deriving DecidableEq, Repr

/-- The whole parsing part of `generate_reading` as a function of the
generated text. -/
def parse_reading (raw : Str) : Parsed :=
  ⟨introOf raw, sectionsOf raw, synthOf raw⟩

/-! ## Cards and drawing (app.py lines 127-172) -/

/-- A card from the knowledge file.  Each field is optional
(`card.get(...)` returns `None` when absent); `keywords`/`tags` may be a
JSON string or a list. -/
inductive KwField
  | missing
  | ofStr (s : Str)
  | ofList (l : List Str)
deriving DecidableEq, Repr

/-- Python truthiness of a `keywords`/`tags` value. -/
def truthyKw : KwField → Bool
  | .missing => false
  | .ofStr s => !s.isEmpty
  | .ofList l => !l.isEmpty

/-- Models `a or b` on `keywords`/`tags` values. -/
def pyOrKw (a b : KwField) : KwField := if truthyKw a then a else b

structure Card where
  name : Option Str := none
  title : Option Str := none
  keywords : KwField := .missing
  tags : KwField := .missing
  meaning : Option Str := none
  base_meaning : Option Str := none
  description : Option Str := none
deriving DecidableEq, Repr

/-- Models `random.sample(pool, k)`'s selection loop, abstracted over the
random stream: the `i`-th draw picks index `rs[i] mod (live pool size)`
(every index below the bound is reachable, and every stream value maps
below the bound), removes that position and recurses.  `random.sample`
guarantees exactly this: `k` picks at pairwise distinct positions of the
population. -/
def sample : List Card → Nat → List Nat → List Card
  | _, 0, _ => []
  | pool, Nat.succ k, rs =>
    if h : pool.length = 0 then []
    else
      let j := rs.headD 0 % pool.length
      pool.get ⟨j, Nat.mod_lt _ (Nat.pos_of_ne_zero h)⟩ ::
        sample (pool.eraseIdx j) k rs.tail

/-- Models `draw_cards` (app.py lines 151-155): if the pool is smaller than the
request, return the whole pool, else sample without replacement. -/
def draw_cards (cards : List Card) (n : Nat) (rs : List Nat) : List Card :=
  if cards.length < n then cards else sample cards n rs

/-! ## Card digest (`card_brief`, app.py lines 158-172) -/

/-- Models `card.get("name") or card.get("title") or "Carta"`. -/
def briefName (c : Card) : Str :=
  pyOrD c.name (pyOrD c.title ("Carta").data)

/-- Models `keywords = card.get("keywords") or card.get("tags") or []`, then
`if isinstance(keywords, str): keywords = [keywords]`. -/
def effKeywords (c : Card) : List Str :=
  match pyOrKw c.keywords (pyOrKw c.tags (.ofList [])) with
  | .ofStr s => [s]
  | .ofList l => l
  | .missing => []

/-- Models `", ".join(str(x) for x in keywords[:6]) if keywords else ""`
(`join []` is already `""`, so the guard is the same). -/
def briefKw (c : Card) : Str :=
  (List.intersperse (", ").data ((effKeywords c).take 6)).flatten

/-- Models `base = re.sub(r"\s+", " ", str(base)).strip()` over the
`meaning`/`base_meaning`/`description` fallback chain. -/
def briefNote (c : Card) : Str :=
  pyStrip (collapseWs
    (pyOrD c.meaning (pyOrD c.base_meaning (pyOrD c.description []))))

/-- Models `card_brief`: `"- {name}"`, optionally
`"  parole chiave: {kw}"`, optionally `"  nota: {base[:220]}"`,
joined by newlines. -/
def card_brief (c : Card) : Str :=
  let parts : List Str :=
    [("- ").data ++ briefName c]
    ++ (if (briefKw c).isEmpty then []
        else [("  parole chiave: ").data ++ briefKw c])
    ++ (if (briefNote c).isEmpty then []
        else [("  nota: ").data ++ (briefNote c).take 220])
  (List.intersperse ("\n").data parts).flatten

/-! ## Prompts (app.py lines 79-112) -/

def BASE_STYLE_RULES : Str :=
  ("\nSei TENET, un motore di lettura simbolica. Usi un tono chiaro, responsabile e non deterministico.\nNon “sentenzi” e non predici eventi certi: descrivi dinamiche, possibilità e passaggi utili.\nEvita frasi tradotte letteralmente o costruzioni rigide. Italiano naturale, scorrevole.\nNon usare toni fatalisti. Se emerge criticità, formulala come invito a chiarire/riconoscere/decidere.\nStruttura: una frase introduttiva generale + 3 sezioni (Stato/Dinamica/Direzione) + Sintesi finale.\n").data

def relazioniIns : Str :=
  ("\nCornice: relazione/legame. Parla di comunicazione, fiducia, confini, bisogni e maturazione del legame.\nEvita “torna/non torna” o verdetti. Dai indicazioni su che cosa va chiarito e cosa può far crescere.\n").data

def lavoroIns : Str :=
  ("\nCornice: lavoro/progetto/denaro. Parla di ruoli, processi, strategia, scelte pratiche e tempistiche.\nEvita frasi vaghe. Mantieni concretezza senza promettere risultati.\n").data

def crescitaIns : Str :=
  ("\nCornice: crescita personale/stato interiore. Parla di risorse interne, blocchi, consapevolezze, integrazione.\nEvita diagnosi cliniche. Offri lettura come orientamento e comprensione.\n").data

def sceltaIns : Str :=
  ("\nCornice: decisione/bivio. Metti a fuoco opzioni, criteri, conseguenze probabili e passo successivo.\nEvita “devi fare X”. Usa “può essere utile”, “se scegli A allora…”.\n").data

def neutroIns : Str :=
  ("\nCornice: generale. Mantieni la lettura applicabile a più aspetti. Non forzare in amore o lavoro.\n").data

/-- Models `CONTEXT_INSTRUCTIONS` (app.py lines 87-107). -/
def CONTEXT_INSTRUCTIONS : List (Str × Str) :=
  [ (relazioniK, relazioniIns), (lavoroK, lavoroIns),
    (crescitaK, crescitaIns), (sceltaK, sceltaIns), (neutroK, neutroIns) ]

/-- Models `context in CONTEXT_INSTRUCTIONS` / `CONTEXT_INSTRUCTIONS[ctx]`. -/
def lookupIns (c : Str) : Option Str :=
  (CONTEXT_INSTRUCTIONS.find? (fun p => p.1 == c)).map Prod.snd

/-- Models `build_system_prompt` (app.py lines 110-112): unknown contexts fall
back to the `"neutro"` block; the result is always
`(BASE_STYLE_RULES + "\n" + block).strip()`. -/
def build_system_prompt (context : Str) : Str :=
  let ins :=
    match lookupIns context with
    | some v => v
    | none => neutroIns
  pyStrip (BASE_STYLE_RULES ++ ("\n").data ++ ins)

/-! ## Authentication (app.py lines 178-207) -/

/-- Models `(.+)` anchored here: the greedy group is the maximal non-newline
run; it must be non-empty (`re.match` does not require reaching the
end). -/
def dotPlusAt (t : Str) : Option Str :=
  let g := t.takeWhile (fun c => !(c == '\n'))
  if g.isEmpty then none else some g

/-- Models `\s*(.+)` with greedy backtracking: prefer consuming whitespace into
`\s*`; on failure start `.+` at the current character. -/
def wsStarDotPlus : Str → Option Str
  | [] => none
  | c :: r =>
    if pyWs c then
      match wsStarDotPlus r with
      | some g => some g
      | none => dotPlusAt (c :: r)
    else dotPlusAt (c :: r)

/-- Models `extract_bearer_key` (app.py lines 187-192):
`re.match(r"Bearer\s+(.+)", h, re.IGNORECASE)`, group stripped; `""`
when the header is absent or does not match. -/
def extract_bearer_key (auth : Option Str) : Str :=
  let h := auth.getD []
  if (h.take 6).map Char.toLower = ("bearer").data then
    match h.drop 6 with
    | [] => []
    | c :: r =>
      if pyWs c then
        match wsStarDotPlus r with
        | some g => pyStrip g
        | none => []
      else []
  else []

/-- Models `require_key` (app.py lines 200-207): non-empty token, and a
non-empty allow-list containing it (an empty allow-list always
rejects). -/
def require_key (allowed : List Str) (auth : Option Str) : Bool :=
  let key := extract_bearer_key auth
  if key.isEmpty then false
  else if allowed ≠ [] ∧ key ∉ allowed then false
  else !allowed.isEmpty

/-! ## HTTP handlers (app.py lines 222-231 and 329-361)

Shared process-wide state (the loaded card collection, the parsed
allow-list, the configured model and default deck name) is threaded
explicitly; every handler returns its response together with the state
it leaves behind. -/

structure ServerState where
  cards : List Card
  allowed : List Str
  model : Str
  defaultDeck : Str
deriving Repr

def APP_VERSION : Str := ("2.0.0-tenet-context").data
def threeCardsV1 : Str := ("three_cards_v1").data

/-- The JSON body of `POST /v1/reading`; each field is optional, absent
or non-dict bodies are `none` at the `Option ReadingPayload` level.
(Fields are modelled as strings, the only case the handler supports
without raising.) -/
structure ReadingPayload where
  question : Option Str := none
  language : Option Str := none
  spread : Option Str := none
  deck : Option Str := none
deriving Repr

def emptyPayload : ReadingPayload := ⟨none, none, none, none⟩

structure ReadingMeta where
  version : Str
  deck : Str
  spread : Str
  cards : List (Option Str)
deriving DecidableEq, Repr

structure ReadingOut where
  context : Str
  intro : Str
  card_sections : List RSection
  synthesis : Str
  meta : ReadingMeta
deriving DecidableEq, Repr

/-- The possible HTTP responses of the two authenticated endpoints. -/
inductive HResp
  | unauthorized
  | badRequest (msg : Str)
  | serverError (msg : Str)
  | okHealth (version model : Str)
  | okReading (out : ReadingOut)
deriving DecidableEq, Repr

def statusOf : HResp → Nat
  | .unauthorized => 401
  | .badRequest _ => 400
  | .serverError _ => 500
  | .okHealth _ _ => 200
  | .okReading _ => 200

/-- Models `c.get("name") or c.get("title")` in the meta block: `None` or `""`
name falls through to the raw `title` value. -/
def metaName (c : Card) : Option Str :=
  match c.name with
  | some s => if s.isEmpty then c.title else some s
  | none => c.title

/-- Models `(payload.get("question") or "").strip()`. -/
def questionOf (payload : Option ReadingPayload) : Str :=
  pyStrip (pyOrD (payload.getD emptyPayload).question [])

/-- Models `(payload.get("spread") or "").strip()`. -/
def spreadOf (payload : Option ReadingPayload) : Str :=
  pyStrip (pyOrD (payload.getD emptyPayload).spread [])

/-- Models `GET /health` (app.py lines 222-231). -/
def health (st : ServerState) (auth : Option Str) : HResp × ServerState :=
  if require_key st.allowed auth then (.okHealth APP_VERSION st.model, st)
  else (.unauthorized, st)

/-- Models `POST /v1/reading` (app.py lines 329-361).  `rs` is the random
stream consumed by `draw_cards`; `gen` is the outcome of the external
completion call inside `generate_reading` (`Except.error e` for any
raised exception, mapped to a 500 whose message is `str(e)`). -/
def v1_reading (st : ServerState) (auth : Option Str)
    (payload : Option ReadingPayload) (rs : List Nat)
    (gen : Except Str Str) : HResp × ServerState :=
  if require_key st.allowed auth then
    let p := payload.getD emptyPayload
    let question := questionOf payload
    if question.length < 5 then
      (.badRequest ("Domanda troppo breve").data, st)
    else
      let _language := pyLower (pyStrip (pyOrD p.language ("it").data))
      let spread := spreadOf payload
      let deck := pyStrip (pyOrD p.deck st.defaultDeck)
      if spread ≠ [] ∧ spread ≠ threeCardsV1 then
        (.badRequest ("Spread non supportato in demo").data, st)
      else
        let ctx := detect_context question
        let cards := draw_cards st.cards 3 rs
        match gen with
        | .error e => (.serverError e, st)
        | .ok text =>
          let parsed := parse_reading text
          (.okReading ⟨ctx, parsed.intro, parsed.sections, parsed.synthesis,
            ⟨APP_VERSION, deck, threeCardsV1, cards.map metaName⟩⟩, st)
  else (.unauthorized, st)

/-! ## Specification-side definitions

Used only to compare the code's behaviour with the specification's
wording (claims about the intro split and the round-trip input
class). -/

/-- Following the spec's words for the intro: the text preceding the
first *labeled section marker* (`Stato`/`Dinamica`/`Direzione` followed
by optional whitespace and a dash) in the remainder. -/
def specIntroCut : Str → Str
  | [] => []
  | c :: t => if labelDashB (c :: t) then [] else c :: specIntroCut t

/-- Spec reading of the intro rule (the whole remainder, stripped, when
no marker occurs). -/
def introOfSpec (main : Str) : Str := pyStrip (specIntroCut main)

/-- Position of the leftmost match of the actual intro-splitting
alternation `\n\s*\n|Stato\s*[–-]` (`main.length` when none). -/
def firstBreakIdx (main : Str) : Nat :=
  match (List.range main.length).find? (fun p => introMatchAt (main.drop p)) with
  | some p => p
  | none => main.length

/-- The amended spec reading of the intro rule: text before the leftmost
blank line or `Stato`-dash marker. -/
def introAmended (main : Str) : Str :=
  pyStrip (main.take (firstBreakIdx main))

/-- Lower-case ASCII letter. -/
def letterB (c : Char) : Bool := 97 ≤ c.toNat && c.toNat ≤ 122

/-- Characters allowed in the synthetic well-formed components: lower
case ASCII letters and spaces (in particular no newline, no dash, no
capital of any marker word). -/
def safeChar (c : Char) : Bool := letterB c || c.toNat = 32

/-- A non-empty safe string beginning and ending with a letter. -/
def trimmedSafeB (s : Str) : Bool :=
  !s.isEmpty && s.all safeChar && letterB (s.headD ' ') &&
    letterB (s.getLastD ' ')

/-- A well-formed synthetic generation output: an intro paragraph, the
three labeled sections (card-name suffix and body each on their own
lines) and a trailing `Sintesi` marker followed by the synthesis. -/
def renderReading (intro n1 b1 n2 b2 n3 b3 syn : Str) : Str :=
  intro ++ ('\n' :: (statoW ++ dashSep)) ++ n1 ++ ['\n'] ++ b1 ++
    ('\n' :: (dinamicaW ++ dashSep)) ++ n2 ++ ['\n'] ++ b2 ++
    ('\n' :: (direzioneW ++ dashSep)) ++ n3 ++ ['\n'] ++ b3 ++
    ('\n' :: (sinMark ++ [':', ' '])) ++ syn

/-! ## Concrete fixtures used by witnesses and counterexamples -/

def cardA : Card :=
  ⟨some ("La Papessa").data, none,
   .ofList ((["interiorità", "silenzio", "non detto"]).map String.data),
   .missing, none, none, none⟩

def cardB : Card :=
  ⟨some ("Il Mago").data, none,
   .ofList ((["inizio", "potenziale", "azione"]).map String.data),
   .missing, none, none, none⟩

def stA : ServerState :=
  ⟨[cardA, cardB], [("TENET-AAAA-001").data], ("gpt-4o-mini").data,
   ("tarot_demo").data⟩

def authA : Option Str := some ("Bearer TENET-AAAA-001").data

/-- A generated text without any recognizable label. -/
def rawNoLabels : Str := ("ciao mondo come va").data

/-- A generated text whose first labeled section marker is a
`Dinamica` marker. -/
def rawDinamica : Str := ("Intro\nDinamica – X\ncorpo").data

/-! # Theorems -/

/-! ## Authentication (C1) -/

/-- Acceptance condition: `require_key` accepts exactly the requests whose extracted bearer
token is non-empty, with a non-empty allow-list containing it. -/
theorem require_key_iff (allowed : List Str) (auth : Option Str) :
    require_key allowed auth = true ↔
      (extract_bearer_key auth ≠ [] ∧ allowed ≠ [] ∧
        extract_bearer_key auth ∈ allowed) := by
  simp only [require_key]
  split_ifs with h1 h2
  · simp only [List.isEmpty_iff] at h1
    simp [h1]
  · simp only [Bool.false_eq_true, false_iff]
    intro hc
    exact h2.2 hc.2.2
  · simp only [List.isEmpty_iff] at h1
    push_neg at h2
    cases allowed with
    | nil => simp
    | cons a as =>
      simp only [List.isEmpty_cons, Bool.not_false, true_iff, ne_eq,
        reduceCtorEq, not_false_eq_true, true_and]
      exact ⟨h1, h2 (List.cons_ne_nil a as)⟩

/-- C1: for every request to `GET /health` or `POST /v1/reading`, the
response is `401 UNAUTHORIZED` if and only if it is *not* the case that
the `Authorization` header yields a bearer token (case-insensitive
`Bearer` prefix match), the allow-list is non-empty, and the token
belongs to the allow-list; conversely the request passes authentication
exactly in that case. -/
theorem auth_gate_401_iff (st : ServerState) (auth : Option Str)
    (payload : Option ReadingPayload) (rs : List Nat)
    (gen : Except Str Str) :
    ((health st auth).1 = HResp.unauthorized ↔
      ¬(extract_bearer_key auth ≠ [] ∧ st.allowed ≠ [] ∧
         extract_bearer_key auth ∈ st.allowed)) ∧
    ((v1_reading st auth payload rs gen).1 = HResp.unauthorized ↔
      ¬(extract_bearer_key auth ≠ [] ∧ st.allowed ≠ [] ∧
         extract_bearer_key auth ∈ st.allowed)) := by
  have hr := require_key_iff st.allowed auth
  by_cases h : require_key st.allowed auth = true
  · have hacc := hr.mp h
    constructor
    · simp [health, h, hacc]
    · simp only [v1_reading, h, if_true]
      split_ifs <;> (try cases gen) <;> simp [hacc]
  · have hacc : ¬(extract_bearer_key auth ≠ [] ∧ st.allowed ≠ [] ∧
        extract_bearer_key auth ∈ st.allowed) := fun ha => h (hr.mpr ha)
    constructor
    · simp [health, h, hacc]
    · simp [v1_reading, h, hacc]

/-! ## Request validation (C2) -/

/-- C2: an authorized `POST /v1/reading` answers `400 BAD_REQUEST`
exactly when the trimmed question is shorter than 5 characters (a
missing question or body trims to `""`), or a spread is explicitly
provided whose trimmed value is non-empty and differs from
`"three_cards_v1"`. -/
theorem reading_400_iff (st : ServerState) (auth : Option Str)
    (payload : Option ReadingPayload) (rs : List Nat)
    (gen : Except Str Str) (h : require_key st.allowed auth = true) :
    statusOf (v1_reading st auth payload rs gen).1 = 400 ↔
      ((questionOf payload).length < 5 ∨
        (spreadOf payload ≠ [] ∧ spreadOf payload ≠ threeCardsV1)) := by
  simp only [v1_reading, h, if_true]
  split_ifs with hq hs
  · simp [statusOf, hq]
  · simp [statusOf, hq, hs]
  · cases gen <;> simp [statusOf, hq, hs]

theorem reading_400_iff_witness :
    statusOf (v1_reading stA authA none [] (Except.error [])).1 = 400 ↔
      ((questionOf none).length < 5 ∨
        (spreadOf none ≠ [] ∧ spreadOf none ≠ threeCardsV1)) :=
  reading_400_iff stA authA none [] (Except.error []) (by decide)

/-! ## Frame property of the handler (C9) -/

/-- C9: handling a `POST /v1/reading` request leaves the shared state
untouched — the card collection and the allow-list after the request
are the ones before it, for every input and every outcome. -/
theorem reading_frame (st : ServerState) (auth : Option Str)
    (payload : Option ReadingPayload) (rs : List Nat)
    (gen : Except Str Str) :
    (v1_reading st auth payload rs gen).2.cards = st.cards ∧
    (v1_reading st auth payload rs gen).2.allowed = st.allowed := by
  simp only [v1_reading]
  split_ifs <;> (try cases gen) <;> simp

/-! ## System prompt totality and fallback (C10) -/

/-- C10: `build_system_prompt` is total: for a known context it returns
the base style block joined with that context's instruction block; for
any other string it falls back to the `"neutro"` block instead of
raising a lookup error. -/
theorem build_system_prompt_total_fallback (context : Str) :
    (lookupIns context = none →
      build_system_prompt context = build_system_prompt neutroK) ∧
    (∀ v, lookupIns context = some v →
      build_system_prompt context =
        pyStrip (BASE_STYLE_RULES ++ ("\n").data ++ v)) := by
  constructor
  · intro h
    have hn : lookupIns neutroK = some neutroIns := by decide
    simp [build_system_prompt, h, hn]
  · intro v h
    simp [build_system_prompt, h]

theorem build_system_prompt_total_fallback_witness :
    build_system_prompt ("cucina").data = build_system_prompt neutroK :=
  (build_system_prompt_total_fallback ("cucina").data).1 (by decide)

/-! ## Card digest (C8) -/

/-- C8: the digest of a card is a (deterministic) function of its
fields, assembled from the name, the first at most 6 keywords and a
note truncated to at most 220 characters. -/
theorem card_brief_spec (c : Card) :
    ((effKeywords c).take 6).length ≤ 6 ∧
    ((briefNote c).take 220).length ≤ 220 ∧
    briefKw c =
      (List.intersperse (", ").data ((effKeywords c).take 6)).flatten ∧
    card_brief c =
      (List.intersperse ("\n").data
        ([("- ").data ++ briefName c]
          ++ (if (briefKw c).isEmpty then []
              else [("  parole chiave: ").data ++ briefKw c])
          ++ (if (briefNote c).isEmpty then []
              else [("  nota: ").data ++ (briefNote c).take 220]))).flatten := by
  refine ⟨?_, ?_, rfl, rfl⟩
  · exact (List.length_take 6 (effKeywords c)) ▸ min_le_left _ _
  · exact (List.length_take 220 (briefNote c)) ▸ min_le_left _ _

/-! ## Context classification (C3) -/

/-- The `"neutro"` context has no keywords, so its score is always 0. -/
theorem ctxScore_neutro (q : Str) : ctxScore neutroK q = 0 := by
  have h : kwOf neutroK = [] := by decide
  simp [ctxScore, h]

/-- Python `max` over a five-entry score table: the winner is the first
entry strictly greater than everything before it and at least everything
after it. -/
theorem pickBest_five (a b c d e : Nat) (k1 k2 k3 k4 k5 : Str) :
    (pickBest [(k1,a),(k2,b),(k3,c),(k4,d),(k5,e)] = (k1, a) ∧
       b ≤ a ∧ c ≤ a ∧ d ≤ a ∧ e ≤ a) ∨
    (pickBest [(k1,a),(k2,b),(k3,c),(k4,d),(k5,e)] = (k2, b) ∧
       a < b ∧ c ≤ b ∧ d ≤ b ∧ e ≤ b) ∨
    (pickBest [(k1,a),(k2,b),(k3,c),(k4,d),(k5,e)] = (k3, c) ∧
       a < c ∧ b < c ∧ d ≤ c ∧ e ≤ c) ∨
    (pickBest [(k1,a),(k2,b),(k3,c),(k4,d),(k5,e)] = (k4, d) ∧
       a < d ∧ b < d ∧ c < d ∧ e ≤ d) ∨
    (pickBest [(k1,a),(k2,b),(k3,c),(k4,d),(k5,e)] = (k5, e) ∧
       a < e ∧ b < e ∧ c < e ∧ d < e) := by
  by_cases h1 : a < b
  · by_cases h2 : b < c
    · by_cases h3 : c < d
      · by_cases h4 : d < e
        · exact Or.inr (Or.inr (Or.inr (Or.inr
            ⟨by simp [pickBest, h1, h2, h3, h4], by omega, by omega,
             by omega, by omega⟩)))
        · exact Or.inr (Or.inr (Or.inr (Or.inl
            ⟨by simp [pickBest, h1, h2, h3, h4], by omega, by omega,
             by omega, by omega⟩)))
      · by_cases h4 : c < e
        · exact Or.inr (Or.inr (Or.inr (Or.inr
            ⟨by simp [pickBest, h1, h2, h3, h4], by omega, by omega,
             by omega, by omega⟩)))
        · exact Or.inr (Or.inr (Or.inl
            ⟨by simp [pickBest, h1, h2, h3, h4], by omega, by omega,
             by omega, by omega⟩))
    · by_cases h3 : b < d
      · by_cases h4 : d < e
        · exact Or.inr (Or.inr (Or.inr (Or.inr
            ⟨by simp [pickBest, h1, h2, h3, h4], by omega, by omega,
             by omega, by omega⟩)))
        · exact Or.inr (Or.inr (Or.inr (Or.inl
            ⟨by simp [pickBest, h1, h2, h3, h4], by omega, by omega,
             by omega, by omega⟩)))
      · by_cases h4 : b < e
        · exact Or.inr (Or.inr (Or.inr (Or.inr
            ⟨by simp [pickBest, h1, h2, h3, h4], by omega, by omega,
             by omega, by omega⟩)))
        · exact Or.inr (Or.inl
            ⟨by simp [pickBest, h1, h2, h3, h4], by omega, by omega,
             by omega, by omega⟩)
  · by_cases h2 : a < c
    · by_cases h3 : c < d
      · by_cases h4 : d < e
        · exact Or.inr (Or.inr (Or.inr (Or.inr
            ⟨by simp [pickBest, h1, h2, h3, h4], by omega, by omega,
             by omega, by omega⟩)))
        · exact Or.inr (Or.inr (Or.inr (Or.inl
            ⟨by simp [pickBest, h1, h2, h3, h4], by omega, by omega,
             by omega, by omega⟩)))
      · by_cases h4 : c < e
        · exact Or.inr (Or.inr (Or.inr (Or.inr
            ⟨by simp [pickBest, h1, h2, h3, h4], by omega, by omega,
             by omega, by omega⟩)))
        · exact Or.inr (Or.inr (Or.inl
            ⟨by simp [pickBest, h1, h2, h3, h4], by omega, by omega,
             by omega, by omega⟩))
    · by_cases h3 : a < d
      · by_cases h4 : d < e
        · exact Or.inr (Or.inr (Or.inr (Or.inr
            ⟨by simp [pickBest, h1, h2, h3, h4], by omega, by omega,
             by omega, by omega⟩)))
        · exact Or.inr (Or.inr (Or.inr (Or.inl
            ⟨by simp [pickBest, h1, h2, h3, h4], by omega, by omega,
             by omega, by omega⟩)))
      · by_cases h4 : a < e
        · exact Or.inr (Or.inr (Or.inr (Or.inr
            ⟨by simp [pickBest, h1, h2, h3, h4], by omega, by omega,
             by omega, by omega⟩)))
        · exact Or.inl
            ⟨by simp [pickBest, h1, h2, h3, h4], by omega, by omega,
             by omega, by omega⟩

/-- C3: `detect_context` returns `"neutro"` exactly when every context
scores 0 on the normalised question; otherwise it returns a context of
maximal keyword score, ties resolved in favour of the first-defined
context of `CONTEXTS`; in particular the example question
`"Dovrei lasciare il mio lavoro?"` classifies as `"lavoro"`. -/
theorem detect_context_correct (question : Str) :
    (detect_context question = neutroK ↔
       ∀ c ∈ CONTEXTS, ctxScore c (normQ question) = 0) ∧
    (∀ c ∈ CONTEXTS,
       ctxScore c (normQ question) ≤
         ctxScore (detect_context question) (normQ question)) ∧
    ((∃ c ∈ CONTEXTS, 0 < ctxScore c (normQ question)) →
       ∀ c ∈ CONTEXTS,
         ctxScore c (normQ question) =
           ctxScore (detect_context question) (normQ question) →
         CONTEXTS.indexOf (detect_context question) ≤ CONTEXTS.indexOf c) ∧
    detect_context ("Dovrei lasciare il mio lavoro?").data = lavoroK := by
  have hex : detect_context ("Dovrei lasciare il mio lavoro?").data =
      lavoroK := by decide
  set q := normQ question with hqdef
  have he : ctxScore neutroK q = 0 := ctxScore_neutro q
  by_cases hempty : q.isEmpty
  · have hq0 : q = [] := List.isEmpty_iff.mp hempty
    have hdc : detect_context question = neutroK := by
      simp [detect_context, ← hqdef, hempty]
    have hall : ∀ c ∈ CONTEXTS, ctxScore c q = 0 := by
      intro c hc
      rw [hq0]
      simp only [CONTEXTS, List.mem_cons, List.not_mem_nil, or_false] at hc
      rcases hc with rfl | rfl | rfl | rfl | rfl <;> decide
    exact ⟨by rw [hdc]; exact iff_of_true rfl hall,
      fun c hc => by rw [hall c hc]; omega,
      fun ⟨c, hc, hpos⟩ => absurd (hall c hc) (by omega), hex⟩
  · have hsc : scoresOf q =
        [(relazioniK, ctxScore relazioniK q), (lavoroK, ctxScore lavoroK q),
         (crescitaK, ctxScore crescitaK q), (sceltaK, ctxScore sceltaK q),
         (neutroK, ctxScore neutroK q)] := rfl
    have hdc : detect_context question =
        (if (pickBest (scoresOf q)).2 = 0 then neutroK
         else (pickBest (scoresOf q)).1) := by
      simp [detect_context, ← hqdef, hempty]
    rw [hsc] at hdc
    rcases pickBest_five (ctxScore relazioniK q) (ctxScore lavoroK q)
        (ctxScore crescitaK q) (ctxScore sceltaK q) (ctxScore neutroK q)
        relazioniK lavoroK crescitaK sceltaK neutroK with
      ⟨hb, i1, i2, i3, i4⟩ | ⟨hb, i1, i2, i3, i4⟩ | ⟨hb, i1, i2, i3, i4⟩ |
      ⟨hb, i1, i2, i3, i4⟩ | ⟨hb, i1, i2, i3, i4⟩
    · rw [hb] at hdc
      by_cases ha : ctxScore relazioniK q = 0
      · have hdc2 : detect_context question = neutroK := by rw [hdc]; simp [ha]
        have hall : ∀ c ∈ CONTEXTS, ctxScore c q = 0 := by
          intro c hc
          simp only [CONTEXTS, List.mem_cons, List.not_mem_nil, or_false] at hc
          rcases hc with rfl | rfl | rfl | rfl | rfl <;> omega
        exact ⟨by rw [hdc2]; exact iff_of_true rfl hall,
          fun c hc => by rw [hall c hc]; omega,
          fun ⟨c, hc, hpos⟩ => absurd (hall c hc) (by omega), hex⟩
      · have hdc2 : detect_context question = relazioniK := by
          rw [hdc]; simp [ha]
        refine ⟨?_, ?_, ?_, hex⟩
        · rw [hdc2]
          exact iff_of_false (by decide)
            (fun hall => ha (hall relazioniK (by decide)))
        · intro c hc
          rw [hdc2]
          simp only [CONTEXTS, List.mem_cons, List.not_mem_nil, or_false] at hc
          rcases hc with rfl | rfl | rfl | rfl | rfl <;> omega
        · intro _ c hc hceq
          rw [hdc2] at hceq ⊢
          simp only [CONTEXTS, List.mem_cons, List.not_mem_nil, or_false] at hc
          rcases hc with rfl | rfl | rfl | rfl | rfl <;> decide
    · rw [hb] at hdc
      have hb0 : ctxScore lavoroK q ≠ 0 := by omega
      have hdc2 : detect_context question = lavoroK := by rw [hdc]; simp [hb0]
      refine ⟨?_, ?_, ?_, hex⟩
      · rw [hdc2]
        exact iff_of_false (by decide)
          (fun hall => hb0 (hall lavoroK (by decide)))
      · intro c hc
        rw [hdc2]
        simp only [CONTEXTS, List.mem_cons, List.not_mem_nil, or_false] at hc
        rcases hc with rfl | rfl | rfl | rfl | rfl <;> omega
      · intro _ c hc hceq
        rw [hdc2] at hceq ⊢
        simp only [CONTEXTS, List.mem_cons, List.not_mem_nil, or_false] at hc
        rcases hc with rfl | rfl | rfl | rfl | rfl <;> first | decide | omega
    · rw [hb] at hdc
      have hb0 : ctxScore crescitaK q ≠ 0 := by omega
      have hdc2 : detect_context question = crescitaK := by
        rw [hdc]; simp [hb0]
      refine ⟨?_, ?_, ?_, hex⟩
      · rw [hdc2]
        exact iff_of_false (by decide)
          (fun hall => hb0 (hall crescitaK (by decide)))
      · intro c hc
        rw [hdc2]
        simp only [CONTEXTS, List.mem_cons, List.not_mem_nil, or_false] at hc
        rcases hc with rfl | rfl | rfl | rfl | rfl <;> omega
      · intro _ c hc hceq
        rw [hdc2] at hceq ⊢
        simp only [CONTEXTS, List.mem_cons, List.not_mem_nil, or_false] at hc
        rcases hc with rfl | rfl | rfl | rfl | rfl <;> first | decide | omega
    · rw [hb] at hdc
      have hb0 : ctxScore sceltaK q ≠ 0 := by omega
      have hdc2 : detect_context question = sceltaK := by rw [hdc]; simp [hb0]
      refine ⟨?_, ?_, ?_, hex⟩
      · rw [hdc2]
        exact iff_of_false (by decide)
          (fun hall => hb0 (hall sceltaK (by decide)))
      · intro c hc
        rw [hdc2]
        simp only [CONTEXTS, List.mem_cons, List.not_mem_nil, or_false] at hc
        rcases hc with rfl | rfl | rfl | rfl | rfl <;> omega
      · intro _ c hc hceq
        rw [hdc2] at hceq ⊢
        simp only [CONTEXTS, List.mem_cons, List.not_mem_nil, or_false] at hc
        rcases hc with rfl | rfl | rfl | rfl | rfl <;> first | decide | omega
    · exact absurd he (by omega)

theorem detect_context_correct_witness :
    ctxScore lavoroK (normQ ("Dovrei lasciare il mio lavoro?").data) ≤
      ctxScore (detect_context ("Dovrei lasciare il mio lavoro?").data)
        (normQ ("Dovrei lasciare il mio lavoro?").data) :=
  (detect_context_correct ("Dovrei lasciare il mio lavoro?").data).2.1
    lavoroK (by decide)

/-! ## Card drawing (C4) -/

/-- Removing position `j` and putting the removed element back in front
is a permutation of the pool. -/
theorem get_cons_eraseIdx_perm (l : List Card) (j : Nat) (h : j < l.length) :
    (l.get ⟨j, h⟩ :: l.eraseIdx j).Perm l := by
  induction l generalizing j with
  | nil => cases h
  | cons a t ih =>
    cases j with
    | zero => simp [List.eraseIdx]
    | succ j =>
      have hj : j < t.length := Nat.succ_lt_succ_iff.mp h
      show List.Perm (t.get ⟨j, hj⟩ :: a :: t.eraseIdx j) (a :: t)
      exact (List.Perm.swap a _ _).trans ((ih j hj).cons a)

theorem sample_length (k : Nat) (pool : List Card) (rs : List Nat)
    (h : k ≤ pool.length) : (sample pool k rs).length = k := by
  induction k generalizing pool rs with
  | zero => rfl
  | succ k ih =>
    have hp : pool.length ≠ 0 := by omega
    have hj : rs.headD 0 % pool.length < pool.length :=
      Nat.mod_lt _ (Nat.pos_of_ne_zero hp)
    rw [sample, dif_neg hp]
    simp only [List.length_cons]
    rw [ih _ rs.tail (by rw [List.length_eraseIdx, if_pos hj]; omega)]

theorem sample_mem {x : Card} : ∀ (pool : List Card) (k : Nat)
    (rs : List Nat), x ∈ sample pool k rs → x ∈ pool := by
  intro pool k
  induction k generalizing pool with
  | zero => intro rs h; simp [sample] at h
  | succ k ih =>
    intro rs h
    by_cases hp : pool.length = 0
    · rw [sample, dif_pos hp] at h
      cases h
    · rw [sample, dif_neg hp] at h
      rcases List.mem_cons.mp h with rfl | hmem
      · exact List.get_mem _ _ _
      · exact List.mem_of_mem_eraseIdx (ih _ _ hmem)

/-- Sampling never picks the same pool position twice, so a
duplicate-free pool yields a duplicate-free sample. -/
theorem sample_nodup : ∀ (pool : List Card) (k : Nat) (rs : List Nat),
    pool.Nodup → (sample pool k rs).Nodup := by
  intro pool k
  induction k generalizing pool with
  | zero => intro rs _; simp [sample]
  | succ k ih =>
    intro rs hnd
    by_cases hp : pool.length = 0
    · rw [sample, dif_pos hp]
      exact List.nodup_nil
    · rw [sample, dif_neg hp]
      have hperm := get_cons_eraseIdx_perm pool (rs.headD 0 % pool.length)
        (Nat.mod_lt _ (Nat.pos_of_ne_zero hp))
      have hcons := (hperm.nodup_iff).mpr hnd
      rcases List.nodup_cons.mp hcons with ⟨hnotmem, hnderase⟩
      exact List.nodup_cons.mpr
        ⟨fun hmem => hnotmem (sample_mem _ _ _ hmem), ih _ _ hnderase⟩

/-- C4 (amended): `draw_cards` returns exactly `min n (pool size)`
cards (for every random stream), and — provided the pool itself has no
duplicate entries — no card appears twice within a single draw. -/
theorem draw_cards_min_nodup (cards : List Card) (n : Nat) (rs : List Nat) :
    (draw_cards cards n rs).length = min n cards.length ∧
    (cards.Nodup → (draw_cards cards n rs).Nodup) := by
  unfold draw_cards
  split_ifs with h
  · exact ⟨by omega, id⟩
  · exact ⟨by rw [sample_length n cards rs (by omega)]; omega,
      fun hnd => sample_nodup cards n rs hnd⟩

/-- C4 (counterexample to the claim as stated): a pool consisting of the
same card twice is returned whole for `n = 3`, so a card appears twice
in a single draw. -/
theorem draw_cards_dup :
    draw_cards [cardA, cardA] 3 [] = [cardA, cardA] ∧
    ¬ (draw_cards [cardA, cardA] 3 []).Nodup := by
  constructor
  · rfl
  · decide

theorem draw_cards_min_nodup_witness :
    List.Nodup [cardA, cardB] ∧ (draw_cards [cardA, cardB] 2 [1, 0]).Nodup :=
  ⟨by decide, (draw_cards_min_nodup [cardA, cardB] 2 [1, 0]).2 (by decide)⟩

/-! ## Parser fallback (C6) and intro rule (C7) -/

/-- C6: whenever the section-block regex finds no labeled section in
`main`, the parser emits exactly one section titled `"Lettura"` whose
body is the full stripped generated text. -/
theorem fallback_lettura (raw : Str) (h : findBlocks (mainOf raw) = []) :
    (parse_reading raw).sections = [⟨letturaW, textOf raw⟩] := by
  simp [parse_reading, sectionsOf, h]

theorem fallback_lettura_witness :
    findBlocks (mainOf rawNoLabels) = [] ∧
    (parse_reading rawNoLabels).sections = [⟨letturaW, textOf rawNoLabels⟩] :=
  ⟨by decide, fallback_lettura rawNoLabels (by decide)⟩

/-- C7 (counterexample to the claim as stated): on a text whose first
labeled section marker is `Dinamica`, the intro is *not* the stripped
text preceding the first labeled section marker — the code only cuts at
blank lines or at a `Stato` marker. -/
theorem intro_spec_counterexample :
    (parse_reading rawDinamica).intro ≠ introOfSpec (mainOf rawDinamica) := by
  decide

/-- The scanner for the intro split returns the prefix of length
`firstBreakIdx`. -/
theorem introCut_eq_take (s : Str) : introCut s = s.take (firstBreakIdx s) := by
  induction s with
  | nil => rfl
  | cons c t ih =>
    by_cases h : introMatchAt (c :: t) = true
    · have hf : firstBreakIdx (c :: t) = 0 := by
        simp only [firstBreakIdx, List.length_cons, List.range_succ_eq_map]
        rw [List.find?_cons_of_pos _ (by simpa using h)]
      simp [introCut, h, hf]
    · have hstep : firstBreakIdx (c :: t) = firstBreakIdx t + 1 := by
        simp only [firstBreakIdx, List.length_cons, List.range_succ_eq_map]
        rw [List.find?_cons_of_neg _ (by simpa using h), List.find?_map]
        have hcomp :
            ((fun p => introMatchAt (List.drop p (c :: t))) ∘ Nat.succ) =
              (fun p => introMatchAt (List.drop p t)) := by
          funext p
          simp [Function.comp, List.drop_succ_cons]
        rw [hcomp]
        cases hfind : List.find? (fun p => introMatchAt (List.drop p t))
            (List.range t.length) with
        | none => simp
        | some p => simp
      simp only [introCut, h, hstep, List.take_succ_cons]
      simp [ih]

/-- C7 (amended): after the `Sintesi` split, the intro equals the
stripped text preceding the leftmost match of the actual splitting
pattern — a blank line (`\n\s*\n`) or a `Stato`-dash marker
(`Stato\s*[–-]`) — and the whole remainder when neither occurs. -/
theorem intro_amended_eq (raw : Str) :
    (parse_reading raw).intro = introAmended (mainOf raw) := by
  simp [parse_reading, introOf, introAmended, introCut_eq_take]

/-! ## Parser round-trip (C5)

The universal round-trip statement quantifies over a class of
well-formed synthetic generation outputs (`renderReading`): arbitrary
intro, card names, section bodies and synthesis drawn from lower-case
letters and spaces, non-empty and letter-delimited (`trimmedSafeB`).
The development below characterises every stage of the parser on such
texts: character facts, `strip` behaviour, the `"Sintesi"` split, and
the section-block scan. -/


theorem char_beq_false {c d : Char} (h : c.toNat ≠ d.toNat) :
    (c == d) = false := by
  refine beq_eq_false_iff_ne.mpr ?_
  intro he
  exact h (he ▸ rfl)

theorem safe_vals {c : Char} (h : safeChar c = true) :
    (97 ≤ c.toNat ∧ c.toNat ≤ 122) ∨ c.toNat = 32 := by
  simp [safeChar, letterB] at h
  rcases h with h | h
  · exact Or.inl h
  · exact Or.inr h

theorem safe_ne_S {c : Char} (h : safeChar c = true) : ('S' == c) = false := by
  refine char_beq_false ?_
  have hv := safe_vals h
  have hS : ('S').toNat = 83 := rfl
  omega

theorem safe_ne_D {c : Char} (h : safeChar c = true) : ('D' == c) = false := by
  refine char_beq_false ?_
  have hv := safe_vals h
  have hD : ('D').toNat = 68 := rfl
  omega

theorem safe_ne_nl {c : Char} (h : safeChar c = true) : (c == '\n') = false := by
  refine char_beq_false ?_
  have hv := safe_vals h
  have hn : ('\n').toNat = 10 := rfl
  omega

theorem letter_not_ws {c : Char} (h : letterB c = true) : pyWs c = false := by
  simp only [letterB, Bool.and_eq_true, decide_eq_true_eq] at h
  simp only [pyWs, Bool.or_eq_false_iff, decide_eq_false_iff_not]
  omega

theorem letter_not_synStrip {c : Char} (h : letterB c = true) :
    synStripChar c = false := by
  simp only [letterB, Bool.and_eq_true, decide_eq_true_eq] at h
  simp only [synStripChar, Bool.or_eq_false_iff, decide_eq_false_iff_not]
  omega

theorem trimmed_parts {s : Str} (h : trimmedSafeB s = true) :
    s ≠ [] ∧ (∀ c ∈ s, safeChar c = true) ∧ letterB (s.headD ' ') = true ∧
      letterB (s.getLastD ' ') = true := by
  simp only [trimmedSafeB, Bool.and_eq_true, Bool.not_eq_true',
    List.isEmpty_eq_false, List.all_eq_true] at h
  exact ⟨h.1.1.1, h.1.1.2, h.1.2, h.2⟩

theorem headD_append {x y : Str} (hx : x ≠ []) (d : Char) :
    (x ++ y).headD d = x.headD d := by
  obtain ⟨c, t, rfl⟩ := List.exists_cons_of_ne_nil hx
  rfl

theorem getLastD_irrel {y : Str} (hy : y ≠ []) (d e : Char) :
    y.getLastD d = y.getLastD e := by
  cases y with
  | nil => exact absurd rfl hy
  | cons c t =>
    cases t with
    | nil => rfl
    | cons a r => rfl

theorem getLastD_append {x y : Str} (hy : y ≠ []) (d : Char) :
    (x ++ y).getLastD d = y.getLastD d := by
  induction x generalizing d with
  | nil => rfl
  | cons c t ih =>
    rw [List.cons_append, List.getLastD_cons, ih c]
    exact getLastD_irrel hy c d

theorem pyStrip_eq_stripSet (s : Str) : pyStrip s = pyStripSet pyWs s := rfl

theorem stripSet_cons_true {p : Char → Bool} {c : Char} {s : Str}
    (hc : p c = true) : pyStripSet p (c :: s) = pyStripSet p s := by
  simp [pyStripSet, List.dropWhile_cons, hc]

theorem dropWhile_head_false {p : Char → Bool} {s : Str} (hne : s ≠ [])
    (hh : p (s.headD ' ') = false) : List.dropWhile p s = s := by
  obtain ⟨c, t, rfl⟩ := List.exists_cons_of_ne_nil hne
  simp only [List.headD_cons] at hh
  simp [List.dropWhile_cons, hh]

theorem dropWhile_reverse_eq {p : Char → Bool} {s : Str} (hne : s ≠ [])
    (hl : p (s.getLastD ' ') = false) :
    List.dropWhile p s.reverse = s.reverse := by
  refine dropWhile_head_false (by simpa using hne) ?_
  rw [List.headD_eq_head?, List.head?_reverse, ← List.getLastD_eq_getLast?]
  exact hl

theorem stripSet_eq_self {p : Char → Bool} {s : Str} (hne : s ≠ [])
    (hh : p (s.headD ' ') = false) (hl : p (s.getLastD ' ') = false) :
    pyStripSet p s = s := by
  show ((List.dropWhile p s).reverse.dropWhile p).reverse = s
  rw [dropWhile_head_false hne hh, dropWhile_reverse_eq hne hl,
    List.reverse_reverse]

theorem stripSet_snoc_eq {p : Char → Bool} {s : Str} {c : Char}
    (hc : p c = true) (hne : s ≠ []) (hh : p (s.headD ' ') = false)
    (hl : p (s.getLastD ' ') = false) : pyStripSet p (s ++ [c]) = s := by
  have h1 : List.dropWhile p (s ++ [c]) = s ++ [c] :=
    dropWhile_head_false (by simp) (by rwa [headD_append hne])
  show ((List.dropWhile p (s ++ [c])).reverse.dropWhile p).reverse = s
  rw [h1, List.reverse_append]
  simp only [List.reverse_cons, List.reverse_nil, List.nil_append,
    List.singleton_append]
  rw [List.dropWhile_cons, if_pos hc, dropWhile_reverse_eq hne hl,
    List.reverse_reverse]

theorem pyStrip_trimmed {s : Str} (h : trimmedSafeB s = true) :
    pyStrip s = s := by
  obtain ⟨hne, _, hh, hl⟩ := trimmed_parts h
  rw [pyStrip_eq_stripSet]
  exact stripSet_eq_self hne (letter_not_ws hh) (letter_not_ws hl)

theorem isPrefixOf_append_self (p r : Str) : p.isPrefixOf (p ++ r) = true := by
  rw [List.isPrefixOf_iff_prefix]
  exact List.prefix_append p r

theorem splitOnce_pos {p s : Str} (h : p.isPrefixOf s = true) :
    splitOnce p s = some ([], s.drop p.length) := by
  cases s with
  | nil => simp [splitOnce, h]
  | cons c t => simp [splitOnce, h]

theorem splitOnce_neg_cons {p : Str} {c : Char} {t : Str}
    (h : p.isPrefixOf (c :: t) = false) :
    splitOnce p (c :: t) =
      (splitOnce p t).map (fun pr => (c :: pr.1, pr.2)) := by
  simp [splitOnce, h]

/-- No occurrence of `P` starts strictly inside `A` when `A ++ C`
follows (`C` is the continuation after `A`). -/
def NoStart (P A C : Str) : Prop :=
  ∀ A2, A2 <:+ A → A2 ≠ [] → P.isPrefixOf (A2 ++ C) = false

theorem noStart_nil (P C : Str) : NoStart P [] C := by
  intro A2 hsuf hne
  exact absurd (List.suffix_nil.mp hsuf) hne

theorem splitOnce_exact (P A B : Str)
    (h : NoStart P A (P ++ B)) : splitOnce P (A ++ (P ++ B)) = some (A, B) := by
  induction A with
  | nil =>
    rw [List.nil_append, splitOnce_pos (isPrefixOf_append_self P B)]
    rw [List.drop_left]
  | cons c A2 ih =>
    have hno : P.isPrefixOf ((c :: A2) ++ (P ++ B)) = false :=
      h (c :: A2) (List.suffix_refl _) (by simp)
    rw [List.cons_append, splitOnce_neg_cons (by rwa [List.cons_append] at hno)]
    rw [ih (fun A3 hsuf hne => h A3 (hsuf.trans (List.suffix_cons c A2)) hne)]
    rfl

theorem noStart_cons_ne {c : Char} {X C : Str} (hc : ('S' == c) = false)
    (hX : NoStart sinMark X C) : NoStart sinMark (c :: X) C := by
  intro A2 hsuf hne
  rcases List.suffix_cons_iff.mp hsuf with rfl | h2
  · show sinMark.isPrefixOf ((c :: X) ++ C) = false
    simp [sinMark, List.isPrefixOf, hc]
  · exact hX A2 h2 hne

theorem noStart_St {X C : Str} (hX : NoStart sinMark X C) :
    NoStart sinMark ('S' :: 't' :: X) C := by
  intro A2 hsuf hne
  rcases List.suffix_cons_iff.mp hsuf with rfl | h2
  · show sinMark.isPrefixOf (('S' :: 't' :: X) ++ C) = false
    have hit : ('i' == 't') = false := by decide
    simp [sinMark, List.isPrefixOf, hit]
  · rcases List.suffix_cons_iff.mp h2 with rfl | h3
    · show sinMark.isPrefixOf (('t' :: X) ++ C) = false
      have hst : ('S' == 't') = false := by decide
      simp [sinMark, List.isPrefixOf, hst]
    · exact hX A2 h3 hne

theorem noStart_noS {X C : Str} (hX : ∀ c ∈ X, ('S' == c) = false) :
    NoStart sinMark X C := by
  induction X with
  | nil => exact noStart_nil _ _
  | cons c t ih =>
    exact noStart_cons_ne (hX c (List.mem_cons_self c t))
      (ih (fun d hd => hX d (List.mem_cons_of_mem c hd)))

theorem noStart_append_noS {X Y C : Str} (hX : ∀ c ∈ X, ('S' == c) = false)
    (hY : NoStart sinMark Y C) : NoStart sinMark (X ++ Y) C := by
  induction X with
  | nil => simpa using hY
  | cons c t ih =>
    rw [List.cons_append]
    exact noStart_cons_ne (hX c (List.mem_cons_self c t))
      (ih (fun d hd => hX d (List.mem_cons_of_mem c hd)))

theorem safe_noS {X : Str} (hX : ∀ c ∈ X, safeChar c = true) :
    ∀ c ∈ X, ('S' == c) = false :=
  fun c hc => safe_ne_S (hX c hc)

theorem matchLabel_length {s lab r : Str} (h : matchLabel s = some (lab, r)) :
    r.length < s.length := by
  simp only [matchLabel] at h
  split_ifs at h with h1 h2 h3 <;>
    simp only [Option.some.injEq, Prod.mk.injEq] at h
  · obtain ⟨rfl, rfl⟩ := h
    have hle := (List.isPrefixOf_iff_prefix.mp h1).length_le
    have h5 : statoW.length = 5 := rfl
    rw [List.length_drop]
    omega
  · obtain ⟨rfl, rfl⟩ := h
    have hle := (List.isPrefixOf_iff_prefix.mp h2).length_le
    have h8 : dinamicaW.length = 8 := rfl
    rw [List.length_drop]
    omega
  · obtain ⟨rfl, rfl⟩ := h
    have hle := (List.isPrefixOf_iff_prefix.mp h3).length_le
    have h9 : direzioneW.length = 9 := rfl
    rw [List.length_drop]
    omega

theorem skipWsDash_length {s r : Str} (h : skipWsDash s = some r) :
    r.length < s.length := by
  simp only [skipWsDash] at h
  split_ifs at h with he hd
  cases h
  have hsub := (List.dropWhile_sublist (l := s) pyWs).length_le
  have hne : List.dropWhile pyWs s ≠ [] := by
    simpa [List.isEmpty_iff] using he
  obtain ⟨c, t, hct⟩ := List.exists_cons_of_ne_nil hne
  rw [hct] at hsub ⊢
  simp only [List.tail_cons, List.length_cons] at hsub ⊢
  omega

theorem nameAt_length {s g r : Str} (h : nameAt s = some (g, r)) :
    r.length < s.length := by
  simp only [nameAt] at h
  split_ifs at h with hg hc
  simp only [Option.some.injEq, Prod.mk.injEq] at h
  obtain ⟨rfl, rfl⟩ := h
  have hgle : 1 ≤ (List.takeWhile (fun c => !(c == '\n')) s).length := by
    cases hgw : List.takeWhile (fun c => !(c == '\n')) s with
    | nil => rw [hgw] at hg; simp at hg
    | cons a b => simp
  have hdne : List.drop (List.takeWhile (fun c => !(c == '\n')) s).length s ≠ [] := by
    intro hnil
    rw [hnil] at hc
    simp at hc
  have hdl : 1 ≤ (List.drop (List.takeWhile (fun c => !(c == '\n')) s).length s).length := by
    cases hdd : List.drop (List.takeWhile (fun c => !(c == '\n')) s).length s with
    | nil => exact absurd hdd hdne
    | cons a b => simp
  rw [List.length_tail, List.length_drop]
  rw [List.length_drop] at hdl
  omega

theorem takeBody_length (s : Str) : (takeBody s).2.length ≤ s.length := by
  induction s with
  | nil => simp [takeBody]
  | cons c t ih =>
    simp only [takeBody]
    split_ifs with h
    · simp
    · simp only [List.length_cons]
      omega

theorem nameLine_length {s g r : Str} (h : nameLine s = some (g, r)) :
    r.length < s.length := by
  induction s with
  | nil => cases h
  | cons c t ih =>
    simp only [nameLine] at h
    split_ifs at h with hws
    · cases hn : nameLine t with
      | some out =>
        obtain ⟨g2, r2⟩ := out
        rw [hn] at h
        simp only [Option.some.injEq, Prod.mk.injEq] at h
        obtain ⟨rfl, rfl⟩ := h
        have hlt := ih hn
        simp only [List.length_cons]
        omega
      | none =>
        rw [hn] at h
        simp only [] at h
        exact nameAt_length h
    · exact nameAt_length h

theorem tryBlockAt_length {s : Str} {sec : RSection} {rest : Str}
    (h : tryBlockAt s = some (sec, rest)) : rest.length < s.length := by
  simp only [tryBlockAt] at h
  cases hm : matchLabel s with
  | none => rw [hm] at h; cases h
  | some p =>
    obtain ⟨lab, r1⟩ := p
    rw [hm] at h
    simp only at h
    cases hd : skipWsDash r1 with
    | none => rw [hd] at h; cases h
    | some r2 =>
      rw [hd] at h
      simp only at h
      cases hn : nameLine r2 with
      | none => rw [hn] at h; cases h
      | some p2 =>
        obtain ⟨g2, r3⟩ := p2
        rw [hn] at h
        simp only [Option.some.injEq, Prod.mk.injEq] at h
        obtain ⟨-, rfl⟩ := h
        have h1 := matchLabel_length hm
        have h2 := skipWsDash_length hd
        have h3 := nameLine_length hn
        have h4 := takeBody_length r3
        omega

theorem findBlocksF_congr : ∀ (f1 : Nat) (f2 : Nat) (s : Str),
    s.length < f1 → s.length < f2 → findBlocksF f1 s = findBlocksF f2 s := by
  intro f1
  induction f1 with
  | zero => intro f2 s h1; omega
  | succ f1 ih =>
    intro f2 s h1 h2
    cases f2 with
    | zero => omega
    | succ f2 =>
      simp only [findBlocksF]
      cases ht : tryBlockAt s with
      | some p =>
        obtain ⟨sec, rest⟩ := p
        have hlt := tryBlockAt_length ht
        dsimp only
        rw [ih f2 rest (by omega) (by omega)]
      | none =>
        cases s with
        | nil => rfl
        | cons c t =>
          simp only [List.length_cons] at h1 h2
          dsimp only
          rw [ih f2 t (by omega) (by omega)]

theorem findBlocks_match {s : Str} {sec : RSection} {rest : Str}
    (h : tryBlockAt s = some (sec, rest)) :
    findBlocks s = sec :: findBlocks rest := by
  have hlt := tryBlockAt_length h
  show findBlocksF (s.length + 1) s = sec :: findBlocks rest
  simp only [findBlocksF, h]
  rw [findBlocksF_congr s.length (rest.length + 1) rest (by omega) (by omega)]
  rfl

theorem findBlocks_skip {c : Char} {t : Str}
    (h : tryBlockAt (c :: t) = none) : findBlocks (c :: t) = findBlocks t := by
  show findBlocksF ((c :: t).length + 1) (c :: t) = findBlocks t
  simp only [findBlocksF, h, List.length_cons]
  rfl

theorem tryBlockAt_none_head {c : Char} {t : Str} (hS : ('S' == c) = false)
    (hD : ('D' == c) = false) : tryBlockAt (c :: t) = none := by
  have hm : matchLabel (c :: t) = none := by
    simp [matchLabel, statoW, dinamicaW, direzioneW, List.isPrefixOf, hS, hD]
  simp [tryBlockAt, hm]

theorem findBlocks_append_safe {X R : Str}
    (hX : ∀ c ∈ X, safeChar c = true) :
    findBlocks (X ++ R) = findBlocks R := by
  induction X with
  | nil => rfl
  | cons c t ih =>
    rw [List.cons_append,
      findBlocks_skip (tryBlockAt_none_head
        (safe_ne_S (hX c (List.mem_cons_self c t)))
        (safe_ne_D (hX c (List.mem_cons_self c t))))]
    exact ih (fun d hd => hX d (List.mem_cons_of_mem c hd))

theorem matchLabel_stato (X : Str) :
    matchLabel (statoW ++ X) = some (statoW, X) := by
  simp only [matchLabel, isPrefixOf_append_self, if_true]
  simp [statoW]

theorem matchLabel_dinamica (X : Str) :
    matchLabel (dinamicaW ++ X) = some (dinamicaW, X) := by
  have h1 : statoW.isPrefixOf (dinamicaW ++ X) = false := by
    have : ('S' == 'D') = false := by decide
    simp [statoW, dinamicaW, List.isPrefixOf, this]
  simp only [matchLabel, h1, Bool.false_eq_true, if_false,
    isPrefixOf_append_self, if_true]
  simp [dinamicaW]

theorem matchLabel_direzione (X : Str) :
    matchLabel (direzioneW ++ X) = some (direzioneW, X) := by
  have h1 : statoW.isPrefixOf (direzioneW ++ X) = false := by
    have : ('S' == 'D') = false := by decide
    simp [statoW, direzioneW, List.isPrefixOf, this]
  have h2 : dinamicaW.isPrefixOf (direzioneW ++ X) = false := by
    have : ('n' == 'r') = false := by decide
    simp [dinamicaW, direzioneW, List.isPrefixOf, this]
  simp only [matchLabel, h1, h2, Bool.false_eq_true, if_false,
    isPrefixOf_append_self, if_true]
  simp [direzioneW]

theorem skipWsDash_dashSep (X : Str) :
    skipWsDash (dashSep ++ X) = some (' ' :: X) := by
  have hsp : pyWs ' ' = true := by decide
  have hdm : pyWs '–' = false := by decide
  simp [skipWsDash, dashSep, List.dropWhile_cons, hsp, hdm, dashChar]

theorem takeWhile_nonl_exact {n R : Str}
    (hn : ∀ c ∈ n, safeChar c = true) :
    List.takeWhile (fun c => !(c == '\n')) (n ++ '\n' :: R) = n := by
  rw [List.takeWhile_append]
  have hself : List.takeWhile (fun c => !(c == '\n')) n = n :=
    List.takeWhile_eq_self_iff.mpr (fun c hc => by simp [safe_ne_nl (hn c hc)])
  rw [hself]
  simp

theorem nameAt_exact {n R : Str} (hne : n ≠ [])
    (hn : ∀ c ∈ n, safeChar c = true) :
    nameAt (n ++ '\n' :: R) = some (n, R) := by
  simp only [nameAt, takeWhile_nonl_exact hn]
  rw [List.drop_left]
  simp [List.isEmpty_iff, hne]

theorem nameLine_exact {n R : Str} (hn : trimmedSafeB n = true) :
    nameLine (' ' :: (n ++ '\n' :: R)) = some (n, R) := by
  obtain ⟨hne, hsafe, hh, _⟩ := trimmed_parts hn
  obtain ⟨c, t, rfl⟩ := List.exists_cons_of_ne_nil hne
  have hcs : pyWs c = false := by
    simp only [List.headD_cons] at hh
    exact letter_not_ws hh
  have hinner : nameLine ((c :: t) ++ '\n' :: R) = some (c :: t, R) := by
    rw [List.cons_append]
    simp only [nameLine, hcs, Bool.false_eq_true, if_false]
    rw [← List.cons_append]
    exact nameAt_exact hne hsafe
  show (match nameLine ((c :: t) ++ '\n' :: R) with
        | some out => some out
        | none => nameAt (' ' :: ((c :: t) ++ '\n' :: R))) = some (c :: t, R)
  rw [hinner]

theorem labelDashB_dinamica (X : Str) :
    labelDashB (dinamicaW ++ (dashSep ++ X)) = true := by
  simp [labelDashB, matchLabel_dinamica, skipWsDash_dashSep]

theorem labelDashB_direzione (X : Str) :
    labelDashB (direzioneW ++ (dashSep ++ X)) = true := by
  simp [labelDashB, matchLabel_direzione, skipWsDash_dashSep]

theorem lookaheadB_cons {c : Char} {r : Str} :
    lookaheadB (c :: r) = ((c == '\n') && labelDashB r) := rfl

theorem takeBody_exact {b R : Str} (hb : ∀ c ∈ b, safeChar c = true)
    (hR : lookaheadB R = true) : takeBody (b ++ R) = (b, R) := by
  induction b with
  | nil =>
    cases R with
    | nil => rfl
    | cons c r =>
      simp only [List.nil_append, takeBody, hR, if_true]
  | cons x xs ih =>
    have hx : lookaheadB ((x :: xs) ++ R) = false := by
      rw [List.cons_append, lookaheadB_cons,
        safe_ne_nl (hb x (List.mem_cons_self x xs))]
      rfl
    rw [List.cons_append]
    simp only [takeBody]
    rw [← List.cons_append, hx]
    simp only [Bool.false_eq_true, if_false]
    rw [ih (fun d hd => hb d (List.mem_cons_of_mem x hd))]

theorem tryBlockAt_block {lab : Str}
    (hm : ∀ X, matchLabel (lab ++ X) = some (lab, X))
    (hlab : pyStrip lab = lab) {n b R : Str}
    (hn : trimmedSafeB n = true) (hb : ∀ c ∈ b, safeChar c = true)
    (hR : lookaheadB R = true) :
    tryBlockAt (lab ++ (dashSep ++ (n ++ ('\n' :: (b ++ R))))) =
      some (⟨lab ++ dashSep ++ n, pyStrip (collapseWs b)⟩, R) := by
  simp only [tryBlockAt, hm, skipWsDash_dashSep, nameLine_exact hn,
    takeBody_exact hb hR, hlab, pyStrip_trimmed hn]

theorem noStart_statoW {X C : Str} (hX : NoStart sinMark X C) :
    NoStart sinMark (statoW ++ X) C :=
  noStart_St (noStart_append_noS (by decide) hX)

theorem parse_sections_eq (raw : Str) :
    (parse_reading raw).sections = sectionsOf raw := rfl

theorem parse_synthesis_eq (raw : Str) :
    (parse_reading raw).synthesis = synthOf raw := rfl

set_option maxHeartbeats 2000000 in
/-- C5: every well-formed synthetic generation output — an intro, the
three labeled section markers each with a card-name suffix and a body,
and a trailing `Sintesi` marker followed by non-empty text — parses
into exactly the 3 labeled sections and a non-empty synthesis. -/
theorem parse_roundtrip (intro n1 b1 n2 b2 n3 b3 syn : Str)
    (hi : trimmedSafeB intro = true) (hn1 : trimmedSafeB n1 = true)
    (hb1 : trimmedSafeB b1 = true) (hn2 : trimmedSafeB n2 = true)
    (hb2 : trimmedSafeB b2 = true) (hn3 : trimmedSafeB n3 = true)
    (hb3 : trimmedSafeB b3 = true) (hsy : trimmedSafeB syn = true) :
    (parse_reading (renderReading intro n1 b1 n2 b2 n3 b3 syn)).sections =
      [⟨statoW ++ dashSep ++ n1, pyStrip (collapseWs b1)⟩,
       ⟨dinamicaW ++ dashSep ++ n2, pyStrip (collapseWs b2)⟩,
       ⟨direzioneW ++ dashSep ++ n3, pyStrip (collapseWs b3)⟩] ∧
    (parse_reading (renderReading intro n1 b1 n2 b2 n3 b3 syn)).sections.length = 3 ∧
    (parse_reading (renderReading intro n1 b1 n2 b2 n3 b3 syn)).synthesis = syn ∧
    syn ≠ [] := by
  obtain ⟨hiNe, hiSafe, hiH, hiL⟩ := trimmed_parts hi
  obtain ⟨hb1Ne, hb1Safe, hb1H, hb1L⟩ := trimmed_parts hb1
  obtain ⟨hb2Ne, hb2Safe, hb2H, hb2L⟩ := trimmed_parts hb2
  obtain ⟨hb3Ne, hb3Safe, hb3H, hb3L⟩ := trimmed_parts hb3
  obtain ⟨hsyNe, hsySafe, hsyH, hsyL⟩ := trimmed_parts hsy
  obtain ⟨hn1Ne, hn1Safe, -, -⟩ := trimmed_parts hn1
  obtain ⟨hn2Ne, hn2Safe, -, -⟩ := trimmed_parts hn2
  obtain ⟨hn3Ne, hn3Safe, -, -⟩ := trimmed_parts hn3
  set T3 : Str := direzioneW ++ (dashSep ++ (n3 ++ ('\n' :: b3))) with hT3def
  set T2 : Str :=
    dinamicaW ++ (dashSep ++ (n2 ++ ('\n' :: (b2 ++ ('\n' :: T3))))) with hT2def
  set T1 : Str :=
    statoW ++ (dashSep ++ (n1 ++ ('\n' :: (b1 ++ ('\n' :: T2))))) with hT1def
  set M0 : Str := intro ++ ('\n' :: T1) with hM0def
  set B0 : Str := ':' :: ' ' :: syn with hB0def
  have hrender : renderReading intro n1 b1 n2 b2 n3 b3 syn =
      (M0 ++ ['\n']) ++ (sinMark ++ B0) := by
    simp only [renderReading, hM0def, hT1def, hT2def, hT3def, hB0def,
      List.cons_append, List.append_assoc, List.singleton_append,
      List.nil_append]
  have hA0 : M0 ++ ['\n'] =
      intro ++ (['\n'] ++ (statoW ++ (dashSep ++ (n1 ++ (['\n'] ++ (b1 ++
        (['\n'] ++ (dinamicaW ++ (dashSep ++ (n2 ++ (['\n'] ++ (b2 ++
        (['\n'] ++ (direzioneW ++ (dashSep ++ (n3 ++ (['\n'] ++ (b3 ++
        ['\n'])))))))))))))))))) := by
    simp only [hM0def, hT1def, hT2def, hT3def, List.cons_append,
      List.append_assoc, List.singleton_append, List.nil_append]
  have hNo : NoStart sinMark (M0 ++ ['\n']) (sinMark ++ B0) := by
    rw [hA0]
    refine noStart_append_noS (safe_noS hiSafe) ?_
    refine noStart_append_noS (by decide) ?_
    refine noStart_statoW ?_
    refine noStart_append_noS (by decide) ?_
    refine noStart_append_noS (safe_noS hn1Safe) ?_
    refine noStart_append_noS (by decide) ?_
    refine noStart_append_noS (safe_noS hb1Safe) ?_
    refine noStart_append_noS (by decide) ?_
    refine noStart_append_noS (by decide) ?_
    refine noStart_append_noS (by decide) ?_
    refine noStart_append_noS (safe_noS hn2Safe) ?_
    refine noStart_append_noS (by decide) ?_
    refine noStart_append_noS (safe_noS hb2Safe) ?_
    refine noStart_append_noS (by decide) ?_
    refine noStart_append_noS (by decide) ?_
    refine noStart_append_noS (by decide) ?_
    refine noStart_append_noS (safe_noS hn3Safe) ?_
    refine noStart_append_noS (by decide) ?_
    refine noStart_append_noS (safe_noS hb3Safe) ?_
    exact noStart_noS (by decide)
  have hsplit : splitOnce sinMark (renderReading intro n1 b1 n2 b2 n3 b3 syn) =
      some (M0 ++ ['\n'], B0) := by
    rw [hrender]
    exact splitOnce_exact sinMark (M0 ++ ['\n']) B0 hNo
  have hMne : M0 ≠ [] := by
    rw [hM0def]
    intro hc
    exact hiNe (List.append_eq_nil.mp hc).1
  have hhM0 : pyWs (M0.headD ' ') = false := by
    rw [hM0def, headD_append hiNe]
    exact letter_not_ws hiH
  have hM0b : M0 =
      (intro ++ ['\n'] ++ statoW ++ dashSep ++ n1 ++ ['\n'] ++ b1 ++ ['\n'] ++
        dinamicaW ++ dashSep ++ n2 ++ ['\n'] ++ b2 ++ ['\n'] ++
        direzioneW ++ dashSep ++ n3 ++ ['\n']) ++ b3 := by
    simp only [hM0def, hT1def, hT2def, hT3def, List.cons_append,
      List.append_assoc, List.singleton_append, List.nil_append]
  have hlM0 : pyWs (M0.getLastD ' ') = false := by
    rw [hM0b, getLastD_append hb3Ne]
    exact letter_not_ws hb3L
  have hrne : renderReading intro n1 b1 n2 b2 n3 b3 syn ≠ [] := by
    rw [hrender]
    simp
  have hhR : pyWs ((renderReading intro n1 b1 n2 b2 n3 b3 syn).headD ' ') =
      false := by
    rw [hrender, headD_append (by simp), headD_append hMne]
    exact hhM0
  have hrender2 : renderReading intro n1 b1 n2 b2 n3 b3 syn =
      ((M0 ++ ['\n']) ++ sinMark ++ [':', ' ']) ++ syn := by
    rw [hrender, hB0def]
    simp [List.append_assoc]
  have hlR : pyWs ((renderReading intro n1 b1 n2 b2 n3 b3 syn).getLastD ' ') =
      false := by
    rw [hrender2, getLastD_append hsyNe]
    exact letter_not_ws hsyL
  have htext : textOf (renderReading intro n1 b1 n2 b2 n3 b3 syn) =
      renderReading intro n1 b1 n2 b2 n3 b3 syn := by
    rw [textOf, pyStrip_eq_stripSet]
    exact stripSet_eq_self hrne hhR hlR
  have hstripA : pyStrip (M0 ++ ['\n']) = M0 := by
    rw [pyStrip_eq_stripSet]
    exact stripSet_snoc_eq (by decide) hMne hhM0 hlM0
  have hmain : mainOf (renderReading intro n1 b1 n2 b2 n3 b3 syn) = M0 := by
    simp only [mainOf, splitSin, htext, hsplit]
    exact hstripA
  have hsynth : synthOf (renderReading intro n1 b1 n2 b2 n3 b3 syn) = syn := by
    simp only [synthOf, splitSin, htext, hsplit, hB0def]
    rw [stripSet_cons_true (by decide), stripSet_cons_true (by decide)]
    exact stripSet_eq_self hsyNe (letter_not_synStrip hsyH)
      (letter_not_synStrip hsyL)
  have hlook2 : lookaheadB ('\n' :: T2) = true := by
    rw [lookaheadB_cons, hT2def, labelDashB_dinamica]
    rfl
  have hlook3 : lookaheadB ('\n' :: T3) = true := by
    rw [lookaheadB_cons, hT3def, labelDashB_direzione]
    rfl
  have hblock1 : tryBlockAt T1 =
      some (⟨statoW ++ dashSep ++ n1, pyStrip (collapseWs b1)⟩,
        '\n' :: T2) := by
    rw [hT1def]
    exact tryBlockAt_block matchLabel_stato (by decide) hn1 hb1Safe hlook2
  have hblock2 : tryBlockAt T2 =
      some (⟨dinamicaW ++ dashSep ++ n2, pyStrip (collapseWs b2)⟩,
        '\n' :: T3) := by
    rw [hT2def]
    exact tryBlockAt_block matchLabel_dinamica (by decide) hn2 hb2Safe hlook3
  have hT3e : T3 = direzioneW ++ (dashSep ++ (n3 ++ ('\n' :: (b3 ++ [])))) := by
    rw [hT3def]
    simp
  have hblock3 : tryBlockAt T3 =
      some (⟨direzioneW ++ dashSep ++ n3, pyStrip (collapseWs b3)⟩, []) := by
    rw [hT3e]
    exact tryBlockAt_block matchLabel_direzione (by decide) hn3 hb3Safe rfl
  have hfb : findBlocks M0 =
      [⟨statoW ++ dashSep ++ n1, pyStrip (collapseWs b1)⟩,
       ⟨dinamicaW ++ dashSep ++ n2, pyStrip (collapseWs b2)⟩,
       ⟨direzioneW ++ dashSep ++ n3, pyStrip (collapseWs b3)⟩] := by
    rw [hM0def, findBlocks_append_safe hiSafe,
      findBlocks_skip (tryBlockAt_none_head (by decide) (by decide)),
      findBlocks_match hblock1,
      findBlocks_skip (tryBlockAt_none_head (by decide) (by decide)),
      findBlocks_match hblock2,
      findBlocks_skip (tryBlockAt_none_head (by decide) (by decide)),
      findBlocks_match hblock3]
    rfl
  have hsec : sectionsOf (renderReading intro n1 b1 n2 b2 n3 b3 syn) =
      [⟨statoW ++ dashSep ++ n1, pyStrip (collapseWs b1)⟩,
       ⟨dinamicaW ++ dashSep ++ n2, pyStrip (collapseWs b2)⟩,
       ⟨direzioneW ++ dashSep ++ n3, pyStrip (collapseWs b3)⟩] := by
    simp only [sectionsOf, hmain, hfb]
    rfl
  rw [parse_sections_eq, parse_synthesis_eq, hsec, hsynth]
  exact ⟨rfl, rfl, rfl, hsyNe⟩

theorem parse_roundtrip_witness :
    trimmedSafeB ("ciao a tutti").data = true ∧
    (parse_reading (renderReading ("ciao a tutti").data ("sole").data
      ("il corpo parla chiaro").data ("luna").data
      ("qualcosa si muove dentro").data ("mare").data
      ("una via nuova appare").data
      ("tutto procede bene").data)).sections.length = 3 ∧
    (parse_reading (renderReading ("ciao a tutti").data ("sole").data
      ("il corpo parla chiaro").data ("luna").data
      ("qualcosa si muove dentro").data ("mare").data
      ("una via nuova appare").data
      ("tutto procede bene").data)).synthesis =
      ("tutto procede bene").data := by
  have h := parse_roundtrip ("ciao a tutti").data ("sole").data
    ("il corpo parla chiaro").data ("luna").data
    ("qualcosa si muove dentro").data ("mare").data
    ("una via nuova appare").data ("tutto procede bene").data
    (by decide) (by decide) (by decide) (by decide) (by decide) (by decide)
    (by decide) (by decide)
  exact ⟨by decide, h.2.1, h.2.2.1⟩
